import Mathlib

/-!
Verification of the `bitcore-lib` BitcoinQuark block-header module
(`src/lib/block/blockheader.js`) against its natural-language specification.

The JavaScript code is shallowly embedded: buffers are `List Nat` of byte
values, JavaScript numbers holding unsigned 32-bit quantities are `Nat`
with explicit `% 2^32` where the code applies 32-bit coercions, arbitrary
precision `BN` values are `Nat`, heterogeneous JavaScript values (a field
that may hold a number, a hex string, a byte buffer or `undefined`) are the
inductive `JsVal`, and operations that can throw return `Option`.
-/

namespace Bitcore

/-- `GENESIS_BITS` constant from blockheader.js line 12. -/
def GENESIS_BITS : Nat := 0x1d00ffff

/-- `QUARK_GENESIS_BITS` constant from blockheader.js line 18 (testnet value). -/
def QUARK_GENESIS_BITS : Nat := 0x1f7fffff

/-- `LOCKTIME_THRESHOLD` constant from blockheader.js line 20. -/
def LOCKTIME_THRESHOLD : Nat := 500000000

/-- A JavaScript value as it may appear in a header field: `undefined`,
a number, a string, or a byte buffer. -/
inductive JsVal where
  | undef : JsVal
  | num : Nat → JsVal
  | str : String → JsVal
  | buf : List Nat → JsVal
deriving DecidableEq, Repr

/-- The header record produced by the decoding paths of blockheader.js.
`height`, `reserved` and `solution` are `undefined` (`none`) on the legacy
layout; `nonce` is a number on the legacy layout and a 32-byte buffer on the
extended (BitcoinQuark) layout — and, after `_fromObject`, possibly a hex
string (a bug examined below). -/
structure BlockHeader where
  version : Nat
  prevHash : List Nat
  merkleRoot : List Nat
  height : Option Nat
  reserved : Option (List Nat)
  time : Nat
  bits : Nat
  nonce : JsVal
  solution : Option (List Nat)
deriving DecidableEq, Repr

namespace BlockHeader

/-- `BlockHeader._isBitcoinQuark` (blockheader.js lines 60-70):
`if (!arg) return false; if (arg > LOCKTIME_THRESHOLD) return false; return true;`
restricted to numeric arguments. -/
def isBitcoinQuark (arg : Nat) : Bool :=
  if arg = 0 then false
  else if LOCKTIME_THRESHOLD < arg then false
  else true

/-- `BlockHeader._isBitcoinQuark` applied to a field that may be `undefined`
(as the code does with `this.height`): `!undefined` is truthy, so `undefined`
yields `false`. -/
def isBitcoinQuarkField : Option Nat → Bool
  | none => false
  | some n => isBitcoinQuark n

end BlockHeader

/-- Modelled from the spec: the BufferWriter collaborator's little-endian
u32 write (`writeUInt32LE`), producing four bytes, least significant first. -/
def u32le (n : Nat) : List Nat :=
  [n % 256, n / 256 % 256, n / 65536 % 256, n / 16777216 % 256]

/-- Modelled from the spec: little-endian u16 write, used inside the varint
encoding. -/
def u16le (n : Nat) : List Nat :=
  [n % 256, n / 256 % 256]

/-- Modelled from the spec: little-endian u64 write, used inside the varint
encoding. -/
def u64le (n : Nat) : List Nat :=
  [n % 256, n / 256 % 256, n / 65536 % 256, n / 16777216 % 256,
   n / 4294967296 % 256, n / 1099511627776 % 256,
   n / 281474976710656 % 256, n / 72057594037927936 % 256]

/-- Modelled from the spec: the BufferWriter collaborator's varint write
(`writeVarintNum`): one raw byte below 253, otherwise a marker byte 253/254/255
followed by a little-endian u16/u32/u64. -/
def writeVarintNum (n : Nat) : List Nat :=
  if n < 253 then [n]
  else if n < 65536 then 253 :: u16le n
  else if n < 4294967296 then 254 :: u32le n
  else 255 :: u64le n

/-- Modelled from the spec: the BufferReader collaborator's `read(len)`;
reading past the available bytes surfaces a decode error (`none`). -/
def readBytes (n : Nat) (b : List Nat) : Option (List Nat × List Nat) :=
  if n ≤ b.length then some (b.take n, b.drop n) else none

/-- Modelled from the spec: the BufferReader collaborator's `readUInt32LE`. -/
def readUInt32LE (b : List Nat) : Option (Nat × List Nat) :=
  match b with
  | b0 :: b1 :: b2 :: b3 :: rest =>
      some (b0 + 256 * b1 + 65536 * b2 + 16777216 * b3, rest)
  | _ => none

/-- Modelled from the spec: little-endian u64 read, used inside the varint
decoding. -/
def readUInt64LE (b : List Nat) : Option (Nat × List Nat) :=
  match b with
  | b0 :: b1 :: b2 :: b3 :: b4 :: b5 :: b6 :: b7 :: rest =>
      some (b0 + 256 * b1 + 65536 * b2 + 16777216 * b3 + 4294967296 * b4 +
            1099511627776 * b5 + 281474976710656 * b6 +
            72057594037927936 * b7, rest)
  | _ => none

/-- Modelled from the spec: the BufferReader collaborator's `readVarintNum`. -/
def readVarintNum (b : List Nat) : Option (Nat × List Nat) :=
  match b with
  | [] => none
  | first :: rest =>
      if first = 253 then
        match rest with
        | b0 :: b1 :: r => some (b0 + 256 * b1, r)
        | _ => none
      else if first = 254 then readUInt32LE rest
      else if first = 255 then readUInt64LE rest
      else some (first, rest)

namespace BlockHeader

/-- `BlockHeader.prototype.toBufferWriter` (blockheader.js lines 266-288):
writes version, prevHash, merkleRoot, then re-applies the variant detector to
`this.height`; the extended branch writes height, reserved, time, bits, the
32-byte nonce, a varint length and the solution; the legacy branch writes
time, bits and the numeric nonce. A write of a field of the wrong runtime
type (e.g. a numeric nonce on the extended branch) throws, modelled `none`. -/
def toBufferWriter (h : BlockHeader) : Option (List Nat) :=
  let pre := u32le h.version ++ h.prevHash ++ h.merkleRoot
  if isBitcoinQuarkField h.height then
    match h.height, h.reserved, h.nonce, h.solution with
    | some ht, some res, JsVal.buf nb, some sol =>
        some (pre ++ u32le ht ++ res ++ u32le h.time ++ u32le h.bits ++ nb ++
              writeVarintNum sol.length ++ sol)
    | _, _, _, _ => none
  else
    match h.nonce with
    | JsVal.num n => some (pre ++ u32le h.time ++ u32le h.bits ++ u32le n)
    | _ => none

/-- `BlockHeader.prototype.toBuffer` (blockheader.js lines 251-253). -/
def toBuffer (h : BlockHeader) : Option (List Nat) :=
  toBufferWriter h

/-- `BlockHeader._fromBufferReader` (blockheader.js lines 185-206): reads
version, prevHash, merkleRoot and the shared u32 slot, applies the variant
detector to that slot, and reads the remaining fields of the detected
layout. -/
def fromBufferReader (b : List Nat) : Option BlockHeader := do
  let (version, b) ← readUInt32LE b
  let (prevHash, b) ← readBytes 32 b
  let (merkleRoot, b) ← readBytes 32 b
  let (timeOrHeight, b) ← readUInt32LE b
  if isBitcoinQuark timeOrHeight then
    let (reserved, b) ← readBytes 28 b
    let (time, b) ← readUInt32LE b
    let (bits, b) ← readUInt32LE b
    let (nonce, b) ← readBytes 32 b
    let (lenSolution, b) ← readVarintNum b
    let (solution, _) ← readBytes lenSolution b
    pure { version := version, prevHash := prevHash, merkleRoot := merkleRoot,
           height := some timeOrHeight, reserved := some reserved,
           time := time, bits := bits, nonce := JsVal.buf nonce,
           solution := some solution }
  else
    let (bits, b) ← readUInt32LE b
    let (nonce, _) ← readUInt32LE b
    pure { version := version, prevHash := prevHash, merkleRoot := merkleRoot,
           height := none, reserved := none, time := timeOrHeight,
           bits := bits, nonce := JsVal.num nonce, solution := none }

/-- The field typing the round-trip claim states for the legacy layout:
u32 version, 32-byte prevHash and merkleRoot, u32 time, bits and nonce, and
no extended fields. -/
def validLegacy (h : BlockHeader) : Prop :=
  h.version < 2 ^ 32 ∧ h.prevHash.length = 32 ∧ h.merkleRoot.length = 32 ∧
  h.time < 2 ^ 32 ∧ h.bits < 2 ^ 32 ∧
  (∃ n, h.nonce = JsVal.num n ∧ n < 2 ^ 32) ∧
  h.height = none ∧ h.reserved = none ∧ h.solution = none

/-- The field typing the round-trip claim states for the extended layout:
additionally a u32 height, 28-byte reserved, 32-byte nonce and solution
bytes. -/
def validQuark (h : BlockHeader) : Prop :=
  h.version < 2 ^ 32 ∧ h.prevHash.length = 32 ∧ h.merkleRoot.length = 32 ∧
  (∃ ht, h.height = some ht ∧ ht < 2 ^ 32) ∧
  (∃ r, h.reserved = some r ∧ r.length = 28) ∧
  h.time < 2 ^ 32 ∧ h.bits < 2 ^ 32 ∧
  (∃ nb, h.nonce = JsVal.buf nb ∧ nb.length = 32) ∧
  (∃ s, h.solution = some s ∧ s.length < 2 ^ 64)

/-- A concrete legacy-shaped record whose `time` lies strictly between 0 and
`LOCKTIME_THRESHOLD`, so the decoder re-detects the wrong layout. -/
def c3Legacy : BlockHeader :=
  { version := 1, prevHash := List.replicate 32 0,
    merkleRoot := List.replicate 32 0, height := none, reserved := none,
    time := 1, bits := 486604799, nonce := JsVal.num 0, solution := none }

/-- A concrete well-formed extended (BitcoinQuark) header record. -/
def quarkExample : BlockHeader :=
  { version := 4, prevHash := List.replicate 32 1,
    merkleRoot := List.replicate 32 2, height := some 5000,
    reserved := some (List.replicate 28 0), time := 1515425422,
    bits := 0x1f07ffff, nonce := JsVal.buf (List.replicate 32 3),
    solution := some [1, 2, 3] }

/-- A concrete legacy header whose `bits` field is the legacy genesis compact
target `0x1d00ffff` (the Bitcoin genesis header's field values). -/
def legacyGenesisHeader : BlockHeader :=
  { version := 1, prevHash := List.replicate 32 0,
    merkleRoot := List.replicate 32 0, height := none, reserved := none,
    time := 1231006505, bits := 0x1d00ffff, nonce := JsVal.num 2083236893,
    solution := none }

end BlockHeader

/-- Iterated doubling: the `while (mov-- > 0) target = target.mul(new BN(2))`
loop of `getTargetDifficulty`, run a fixed number of times. -/
def mulLoop (target : Nat) : Nat → Nat
  | 0 => target
  | k + 1 => mulLoop (target * 2) k

/-- One byte as two lowercase hex digits (Node `Buffer#toString('hex')`). -/
def byteToHex (b : Nat) : String :=
  String.mk [Nat.digitChar (b / 16 % 16), Nat.digitChar (b % 16)]

/-- A byte buffer as a lowercase hex string. -/
def bytesToHex (l : List Nat) : String :=
  String.join (l.map byteToHex)

/-- Numeric value of one hex digit character. -/
def hexDigitVal (c : Char) : Nat :=
  if '0' ≤ c ∧ c ≤ '9' then c.toNat - 48
  else if 'a' ≤ c ∧ c ≤ 'f' then c.toNat - 87
  else if 'A' ≤ c ∧ c ≤ 'F' then c.toNat - 55
  else 0

/-- Consecutive hex digit pairs as bytes (Node `new Buffer(str, 'hex')`). -/
def hexPairsToBytes : List Char → List Nat
  | c1 :: c2 :: rest =>
      (hexDigitVal c1 * 16 + hexDigitVal c2) :: hexPairsToBytes rest
  | _ => []

/-- A hex string as a byte buffer. -/
def hexToBytes (s : String) : List Nat :=
  hexPairsToBytes s.data

/-- A hex string parsed as an unsigned big integer (`new BN(str, 'hex')`). -/
def hexToNat (s : String) : Nat :=
  s.data.foldl (fun acc c => acc * 16 + hexDigitVal c) 0

/-- `BufferUtil.reverse(new Buffer(str, 'hex'))` as used by `_fromObject`. -/
def reverseHex (s : String) : List Nat :=
  (hexToBytes s).reverse

/-- Modelled from the spec's wording of `decodeCompactTarget`
(the DifficultyCalculator interface): `mantissa = bits & 0xffffff`,
`exponent = bits >> 24`, `shiftCount = 8 * (exponent - 3)`; left-shift the
mantissa when the count is positive, otherwise return the mantissa
unchanged. Used as the specification-side comparator for the code's
`getTargetDifficulty`. -/
def decodeCompactTarget (bits : Nat) : Nat :=
  let mantissa := bits % 16777216
  let exponent := bits / 16777216
  let shiftCount : Int := 8 * ((exponent : Int) - 3)
  if 0 < shiftCount then mantissa * 2 ^ shiftCount.toNat else mantissa

/-- JavaScript `String.prototype.slice` index resolution: a negative index
counts from the end of the string (`max(len + i, 0)`); a nonnegative one is
clamped to the length. -/
def jsSliceIndex (len : Nat) (i : Int) : Nat :=
  if i < 0 then ((len : Int) + i).toNat else min i.toNat len

namespace BlockHeader

/-- `BlockHeader.prototype.getTargetDifficulty` (blockheader.js lines
295-304). The parameter default `bits = bits || this.bits` falls back to the
header's own `bits` when the argument is absent (`none`) or zero (falsy);
`& 0xffffff` and `>>> 24` coerce to 32 bits first; the shift count
`8 * ((bits >>> 24) - 3)` is signed and the doubling loop runs only while it
is positive. -/
def getTargetDifficulty (h : BlockHeader) (bitsArg : Option Nat) : Nat :=
  let bits := match bitsArg with
    | none => h.bits
    | some b => if b = 0 then h.bits else b
  let bits32 := bits % 4294967296
  let target := bits32 % 16777216
  let mov : Int := 8 * (((bits32 / 16777216 : Nat) : Int) - 3)
  mulLoop target mov.toNat

/-- `BlockHeader.prototype.getDifficulty` (blockheader.js lines 310-330), up
to the final `parseFloat`: the decimal string handed to `parseFloat` is
returned (`"1"` on the divide-by-zero guard). `BN#toString(10)` is
`Nat.repr`; `decimalPos = difficultyString.length - 8` is a JavaScript
number that goes negative on quotients shorter than 8 digits, and both
`slice(0, decimalPos)` and `slice(decimalPos)` then resolve it from the end
of the string, per `jsSliceIndex`. -/
def getDifficulty (h : BlockHeader) : String :=
  let genesisBits := if isBitcoinQuarkField h.height then QUARK_GENESIS_BITS
    else GENESIS_BITS
  let difficulty1Target := getTargetDifficulty h (some genesisBits) * 100000000
  let currentTarget := getTargetDifficulty h none
  if currentTarget = 0 then "1"
  else
    let difficultyString := Nat.repr (difficulty1Target / currentTarget)
    let decimalPos : Int := (difficultyString.length : Int) - 8
    let pos := jsSliceIndex difficultyString.length decimalPos
    difficultyString.take pos ++ "." ++ difficultyString.drop pos

/-- `BlockHeader.prototype._getHash` (blockheader.js lines 335-338) composed
with the `id` getter's computation (lines 346-351): lowercase hex of the
byte-reversed double hash of the serialized header. The double-hash
collaborator `Hash.sha256sha256` is out of scope per the spec and is the
parameter `H`; a serialization failure propagates as `none`. -/
def headerId (H : List Nat → List Nat) (h : BlockHeader) : Option String :=
  (toBuffer h).map (fun b => bytesToHex (H b).reverse)

/-- `BlockHeader.prototype.validProofOfWork` (blockheader.js lines 371-379):
parse the id hex string as a big integer, decode the target with the
argument-less `getTargetDifficulty()` call, and fail exactly when
`pow.cmp(target) > 0`. -/
def validProofOfWork (H : List Nat → List Nat) (h : BlockHeader) :
    Option Bool :=
  (headerId H h).map (fun i =>
    let pow := hexToNat i
    let target := getTargetDifficulty h none
    if target < pow then false else true)

end BlockHeader

/-- The plain field mapping accepted by `BlockHeader._fromObject` and
produced by `toObject`: `hash` is optional; `version`, `time` and `bits` are
numeric; the multi-byte fields may each be a hex string, a buffer or
absent. -/
structure HeaderObj where
  hash : Option String
  version : Nat
  prevHash : JsVal
  merkleRoot : JsVal
  height : Option Nat
  reserved : JsVal
  time : Nat
  bits : Nat
  nonce : JsVal
  solution : JsVal
deriving DecidableEq, Repr

/-- `BlockHeader._fromObject` (blockheader.js lines 95-137). String-valued
`prevHash`/`merkleRoot` are hex-decoded and byte-reversed; when the variant
detector accepts `height`, string-valued `reserved` and `nonce` are likewise
reversed and a string-valued `solution` is hex-decoded without reversal —
but the `nonce` entry of the returned record is built from the original
`data.nonce`, not from the reversed local variable, reproducing the source
exactly. -/
def fromObjectInfo (d : HeaderObj) : HeaderObj :=
  let isQuark := BlockHeader.isBitcoinQuarkField d.height
  let prevHash := match d.prevHash with
    | JsVal.str s => JsVal.buf (reverseHex s)
    | v => v
  let merkleRoot := match d.merkleRoot with
    | JsVal.str s => JsVal.buf (reverseHex s)
    | v => v
  let reserved := if isQuark then
      match d.reserved with
      | JsVal.str s => JsVal.buf (reverseHex s)
      | v => v
    else d.reserved
  let nonce := if isQuark then
      match d.nonce with
      | JsVal.str s => JsVal.buf (reverseHex s)
      | v => v
    else d.nonce
  let solution := if isQuark then
      match d.solution with
      | JsVal.str s => JsVal.buf (hexToBytes s)
      | v => v
    else d.solution
  { hash := d.hash, version := d.version, prevHash := prevHash,
    height := d.height, merkleRoot := merkleRoot, reserved := reserved,
    time := d.time, bits := d.bits, nonce := d.nonce, solution := solution }

namespace BlockHeader

/-- `BlockHeader.prototype.toObject` (blockheader.js lines 220-246): render
the record as a plain field mapping, byte-reversing `prevHash`,
`merkleRoot`, `reserved` and `nonce` into display-order hex and hex-encoding
`solution` without reversal; the extended entries appear only when the
variant detector accepts the record's `height`. The `hash` entry reads the
`id` accessor, which serializes the header, so a failure there propagates as
`none`. -/
def toObject (H : List Nat → List Nat) (h : BlockHeader) : Option HeaderObj :=
  if isBitcoinQuarkField h.height then
    match h.height, h.reserved, h.nonce, h.solution, headerId H h with
    | some ht, some res, JsVal.buf nb, some sol, some hid =>
        some { hash := some hid, version := h.version,
               prevHash := JsVal.str (bytesToHex h.prevHash.reverse),
               merkleRoot := JsVal.str (bytesToHex h.merkleRoot.reverse),
               height := some ht,
               reserved := JsVal.str (bytesToHex res.reverse),
               time := h.time, bits := h.bits,
               nonce := JsVal.str (bytesToHex nb.reverse),
               solution := JsVal.str (bytesToHex sol) }
    | _, _, _, _, _ => none
  else
    match headerId H h with
    | some hid =>
        some { hash := some hid, version := h.version,
               prevHash := JsVal.str (bytesToHex h.prevHash.reverse),
               merkleRoot := JsVal.str (bytesToHex h.merkleRoot.reverse),
               height := none, reserved := JsVal.undef,
               time := h.time, bits := h.bits, nonce := h.nonce,
               solution := JsVal.undef }
    | none => none

end BlockHeader

/-- A header instance together with the hidden `_id` cache backing the
`id`/`hash` accessor property (blockheader.js lines 340-355). -/
structure HeaderInstance where
  header : BlockHeader
  cachedId : Option String
deriving DecidableEq, Repr

/-- The `id`/`hash` getter (blockheader.js lines 346-351): on a cache miss,
compute the hex of the byte-reversed double hash of the serialized header
and store it on the instance; on a hit, return the stored string and leave
the instance untouched. `none` models a serialization throw. -/
def idGet (H : List Nat → List Nat) (s : HeaderInstance) :
    Option (String × HeaderInstance) :=
  match s.cachedId with
  | some v => some (v, s)
  | none =>
      match BlockHeader.headerId H s.header with
      | none => none
      | some v => some (v, { s with cachedId := some v })

/-- The `id`/`hash` setter (blockheader.js line 352): `set: _.noop` — the
assigned value is discarded and the instance is untouched. -/
def idSet (s : HeaderInstance) : String → HeaderInstance :=
  fun _ => s

/-- A constant stand-in for the double-hash collaborator, used to evaluate
the identity and proof-of-work paths on concrete inputs. -/
def constHash : List Nat → List Nat :=
  fun _ => List.replicate 32 0

/-- The 64-character all-zero hex string `constHash` induces as an id. -/
def zeros64 : String :=
  bytesToHex (List.replicate 32 0)

/-- A fresh instance of the legacy genesis-bits header, id not yet read. -/
def freshInstance : HeaderInstance :=
  ⟨BlockHeader.legacyGenesisHeader, none⟩

/-- `freshInstance` after its id has been computed and cached. -/
def cachedInstance : HeaderInstance :=
  ⟨BlockHeader.legacyGenesisHeader, some zeros64⟩

/-- `legacyGenesisHeader` with its `bits` field mutated afterwards. -/
def mutatedHeader : BlockHeader :=
  { BlockHeader.legacyGenesisHeader with bits := 0 }

/-- A legacy header whose compact target `0x1d64b540` has mantissa 6600000,
so the difficulty quotient against the legacy genesis target is the 6-digit
number 992954. -/
def c5Header : BlockHeader :=
  { version := 1, prevHash := List.replicate 32 0,
    merkleRoot := List.replicate 32 0, height := none, reserved := none,
    time := 1231006505, bits := 0x1d64b540, nonce := JsVal.num 0,
    solution := none }

/-- The claim's wording of the difficulty rendering: a decimal point spliced
in 8 digits from the end of the digit string. -/
def insertPointEightFromEnd (s : String) : String :=
  s.take (s.length - 8) ++ "." ++ s.drop (s.length - 8)

/-- A concrete extended plain-field mapping with hex strings in every
multi-byte slot, exercising every branch of `_fromObject`. -/
def c7Obj : HeaderObj :=
  { hash := none, version := 4, prevHash := JsVal.str "00ff",
    merkleRoot := JsVal.str "8001", height := some 7,
    reserved := JsVal.str "0a0b", time := 600000000, bits := 520617983,
    nonce := JsVal.str "1234", solution := JsVal.str "abcd" }

end Bitcore

namespace Bitcore

/-- Little-endian u32 write/read inversion. -/
theorem readUInt32LE_u32le {n : Nat} (hn : n < 2 ^ 32) (rest : List Nat) :
    readUInt32LE (u32le n ++ rest) = some (n, rest) := by
  simp only [u32le, List.cons_append, List.nil_append, readUInt32LE,
    Option.some.injEq, Prod.mk.injEq, and_true]
  omega

/-- Little-endian u64 write/read inversion. -/
theorem readUInt64LE_u64le {n : Nat} (hn : n < 2 ^ 64) (rest : List Nat) :
    readUInt64LE (u64le n ++ rest) = some (n, rest) := by
  simp only [u64le, List.cons_append, List.nil_append, readUInt64LE,
    Option.some.injEq, Prod.mk.injEq, and_true]
  omega

/-- Reading exactly the bytes that were written returns them and leaves the
rest of the stream untouched. -/
theorem readBytes_append {n : Nat} {xs : List Nat} (hxs : xs.length = n)
    (rest : List Nat) : readBytes n (xs ++ rest) = some (xs, rest) := by
  subst hxs
  have hle : xs.length ≤ (xs ++ rest).length := by simp
  simp [readBytes, hle, List.take_left, List.drop_left]

/-- `readBytes` consuming the whole remaining stream. -/
theorem readBytes_self {n : Nat} {xs : List Nat} (hxs : xs.length = n) :
    readBytes n xs = some (xs, []) := by
  simpa using readBytes_append hxs []

/-- `readUInt32LE` at the end of the stream. -/
theorem readUInt32LE_u32le_self {n : Nat} (hn : n < 2 ^ 32) :
    readUInt32LE (u32le n) = some (n, []) := by
  simpa using readUInt32LE_u32le hn []

/-- Varint write/read inversion for all lengths below `2^64`. -/
theorem readVarintNum_writeVarintNum {n : Nat} (hn : n < 2 ^ 64)
    (rest : List Nat) :
    readVarintNum (writeVarintNum n ++ rest) = some (n, rest) := by
  by_cases h1 : n < 253
  · have e1 : n ≠ 253 := by omega
    have e2 : n ≠ 254 := by omega
    have e3 : n ≠ 255 := by omega
    simp [writeVarintNum, readVarintNum, h1, e1, e2, e3]
  · by_cases h2 : n < 65536
    · simp [writeVarintNum, readVarintNum, u16le, h1, h2]
      omega
    · by_cases h3 : n < 4294967296
      · simp [writeVarintNum, readVarintNum, h1, h2, h3,
          readUInt32LE_u32le (by omega : n < 2 ^ 32) rest]
      · simp [writeVarintNum, readVarintNum, h1, h2, h3,
          readUInt64LE_u64le hn rest]

/-- C1: the variant detector returns false (legacy) on zero, false above
`LOCKTIME_THRESHOLD`, and true (extended) otherwise, for every 32-bit value. -/
theorem isBitcoinQuark_spec (c : Nat) (hc : c < 2 ^ 32) :
    (c = 0 → BlockHeader.isBitcoinQuark c = false) ∧
    (LOCKTIME_THRESHOLD < c → BlockHeader.isBitcoinQuark c = false) ∧
    (c ≠ 0 → c ≤ LOCKTIME_THRESHOLD → BlockHeader.isBitcoinQuark c = true) := by
  refine ⟨fun h0 => ?_, fun hgt => ?_, fun h0 hle => ?_⟩
  · simp [BlockHeader.isBitcoinQuark, h0]
  · have : c ≠ 0 := by omega
    simp [BlockHeader.isBitcoinQuark, this, hgt]
  · simp [BlockHeader.isBitcoinQuark, h0, Nat.not_lt.mpr hle]

/-- Witness for C1 at the concrete input 3. -/
theorem isBitcoinQuark_spec_witness :
    (3 : Nat) < 2 ^ 32 ∧ BlockHeader.isBitcoinQuark 3 = true :=
  ⟨by decide, (isBitcoinQuark_spec 3 (by decide)).2.2 (by decide) (by decide)⟩

/-- C2 counterexample: the claim says the detector returns legacy (false) at
exactly `LOCKTIME_THRESHOLD`, but the code's comparison is strict, so the
detector returns true (extended) there. -/
theorem isBitcoinQuark_at_threshold :
    BlockHeader.isBitcoinQuark LOCKTIME_THRESHOLD = true := by decide

/-- C2 amended: the detector returns legacy for 0, extended at exactly
`LOCKTIME_THRESHOLD`, legacy for `LOCKTIME_THRESHOLD + 1`, and extended for
`LOCKTIME_THRESHOLD - 1` and every value strictly between 0 and
`LOCKTIME_THRESHOLD`. -/
theorem isBitcoinQuark_boundary :
    BlockHeader.isBitcoinQuark 0 = false ∧
    BlockHeader.isBitcoinQuark LOCKTIME_THRESHOLD = true ∧
    BlockHeader.isBitcoinQuark (LOCKTIME_THRESHOLD + 1) = false ∧
    BlockHeader.isBitcoinQuark (LOCKTIME_THRESHOLD - 1) = true ∧
    ∀ c : Nat, 0 < c → c < LOCKTIME_THRESHOLD →
      BlockHeader.isBitcoinQuark c = true := by
  refine ⟨by decide, by decide, by decide, by decide, fun c h0 hlt => ?_⟩
  have h1 : c ≠ 0 := by omega
  have h2 : ¬ LOCKTIME_THRESHOLD < c := by omega
  simp [BlockHeader.isBitcoinQuark, h1, h2]

/-- Witness for C2's amended statement at the concrete input 7. -/
theorem isBitcoinQuark_boundary_witness :
    BlockHeader.isBitcoinQuark 7 = true :=
  isBitcoinQuark_boundary.2.2.2.2 7 (by decide) (by decide)

/-- C3 counterexample: a record satisfying exactly the field typing the claim
states for the legacy layout (u32 version/time/bits/nonce, 32-byte prevHash
and merkleRoot), whose encoding does not decode back to it — the decoder
re-detects the shared slot value 1 as an extended height and fails. -/
theorem roundtrip_cex :
    BlockHeader.validLegacy BlockHeader.c3Legacy ∧
    (BlockHeader.toBufferWriter BlockHeader.c3Legacy).bind BlockHeader.fromBufferReader ≠
      some BlockHeader.c3Legacy := by
  refine ⟨⟨by decide, by decide, by decide, by decide, by decide,
    ⟨0, rfl, by decide⟩, rfl, rfl, rfl⟩, by decide⟩

set_option maxHeartbeats 1600000 in
/-- C3 amended: encoding followed by decoding is the identity on every record
of either layout whose fields are well-typed and whose shared wire slot
re-detects the same layout (legacy: the detector rejects `time`; extended:
the detector accepts `height`). -/
theorem fromBufferReader_toBufferWriter (h : BlockHeader)
    (hv : (BlockHeader.validLegacy h ∧
            BlockHeader.isBitcoinQuark h.time = false) ∨
          (BlockHeader.validQuark h ∧
            BlockHeader.isBitcoinQuarkField h.height = true)) :
    (BlockHeader.toBufferWriter h).bind BlockHeader.fromBufferReader =
      some h := by
  obtain ⟨ver, ph, mr, hei, res, tim, bits, non, solu⟩ := h
  rcases hv with ⟨⟨hver, hph, hmr, htime, hbits, ⟨n, hn, hn32⟩, hh, hr, hs⟩,
      hdet⟩ |
    ⟨⟨hver, hph, hmr, ⟨ht, hht, hht32⟩, ⟨rs, hres, hres28⟩, htime, hbits,
      ⟨nb, hnb, hnb32⟩, ⟨sol, hsol, hsol64⟩⟩, hdet⟩
  · simp only at hn hh hr hs hdet
    subst hn hh hr hs
    have henc : BlockHeader.toBufferWriter
        ⟨ver, ph, mr, none, none, tim, bits, JsVal.num n, none⟩ =
        some (u32le ver ++ ph ++ mr ++ u32le tim ++ u32le bits ++ u32le n) :=
      by simp [BlockHeader.toBufferWriter, BlockHeader.isBitcoinQuarkField]
    rw [henc, Option.some_bind]
    simp only [List.append_assoc]
    simp [BlockHeader.fromBufferReader, readUInt32LE_u32le hver,
      readBytes_append hph, readBytes_append hmr, readUInt32LE_u32le htime,
      readUInt32LE_u32le hbits, readUInt32LE_u32le_self hn32, hdet]
  · simp only at hht hres hnb hsol
    subst hht hres hnb hsol
    simp only [BlockHeader.isBitcoinQuarkField] at hdet
    have henc : BlockHeader.toBufferWriter
        ⟨ver, ph, mr, some ht, some rs, tim, bits, JsVal.buf nb, some sol⟩ =
        some (u32le ver ++ ph ++ mr ++ u32le ht ++ rs ++ u32le tim ++
          u32le bits ++ nb ++ writeVarintNum sol.length ++ sol) := by
      simp [BlockHeader.toBufferWriter, BlockHeader.isBitcoinQuarkField, hdet]
    rw [henc, Option.some_bind]
    simp only [List.append_assoc]
    simp [BlockHeader.fromBufferReader, readUInt32LE_u32le hver,
      readBytes_append hph, readBytes_append hmr, readUInt32LE_u32le hht32,
      hdet, readBytes_append hres28, readUInt32LE_u32le htime,
      readUInt32LE_u32le hbits, readBytes_append hnb32,
      readVarintNum_writeVarintNum hsol64,
      @readBytes_self sol.length sol rfl]

/-- Witness for C3's amended round trip at a concrete extended header. -/
theorem fromBufferReader_toBufferWriter_witness :
    (BlockHeader.toBufferWriter BlockHeader.quarkExample).bind
      BlockHeader.fromBufferReader = some BlockHeader.quarkExample :=
  fromBufferReader_toBufferWriter BlockHeader.quarkExample
    (Or.inr ⟨⟨by decide, by decide, by decide, ⟨5000, rfl, by decide⟩,
      ⟨List.replicate 28 0, rfl, by decide⟩, by decide, by decide,
      ⟨List.replicate 32 3, rfl, by decide⟩, ⟨[1, 2, 3], rfl, by decide⟩⟩,
      by decide⟩)

/-- The doubling loop multiplies by the corresponding power of two. -/
theorem mulLoop_eq (k : Nat) : ∀ t : Nat, mulLoop t k = t * 2 ^ k := by
  induction k with
  | zero => intro t; simp [mulLoop]
  | succ n ih =>
      intro t
      rw [mulLoop, ih (t * 2)]
      ring

/-- The code's compact-target decoding agrees with the spec-worded
`decodeCompactTarget` on every 32-bit input once the argument fallback has
resolved. -/
theorem mulLoop_decode (b : Nat) :
    mulLoop (b % 4294967296 % 16777216)
      (8 * (((b % 4294967296 / 16777216 : Nat) : Int) - 3)).toNat =
      decodeCompactTarget (b % 4294967296) := by
  rw [mulLoop_eq]
  unfold decodeCompactTarget
  by_cases hpos : (0 : Int) < 8 * (((b % 4294967296 / 16777216 : Nat) : Int) - 3)
  · rw [if_pos hpos]
  · rw [if_neg hpos]
    have : (8 * (((b % 4294967296 / 16777216 : Nat) : Int) - 3)).toNat = 0 := by
      omega
    rw [this]
    ring

/-- With a nonzero argument, `getTargetDifficulty` decodes that argument. -/
theorem getTargetDifficulty_some (h : BlockHeader) {b : Nat} (hnz : b ≠ 0) :
    BlockHeader.getTargetDifficulty h (some b) =
      decodeCompactTarget (b % 4294967296) := by
  unfold BlockHeader.getTargetDifficulty
  simp only [hnz, if_false]
  exact mulLoop_decode b

/-- With no argument, `getTargetDifficulty` decodes the header's own
`bits`. -/
theorem getTargetDifficulty_none (h : BlockHeader) :
    BlockHeader.getTargetDifficulty h none =
      decodeCompactTarget (h.bits % 4294967296) := by
  unfold BlockHeader.getTargetDifficulty
  exact mulLoop_decode h.bits

/-- C4 counterexample: the claim's formula at the 32-bit value 0 gives the
mantissa 0, but calling `getTargetDifficulty(0)` on a header whose own
`bits` is the genesis compact target returns that header's decoded target —
the falsy argument silently falls back to `this.bits`. -/
theorem getTargetDifficulty_zero_cex :
    BlockHeader.getTargetDifficulty BlockHeader.legacyGenesisHeader
        (some 0) = 65535 * 2 ^ 208 ∧
    decodeCompactTarget 0 = 0 ∧
    BlockHeader.getTargetDifficulty BlockHeader.legacyGenesisHeader
        (some 0) ≠ decodeCompactTarget 0 := by
  refine ⟨?_, by decide, ?_⟩
  · have := getTargetDifficulty_none BlockHeader.legacyGenesisHeader
    rw [show BlockHeader.getTargetDifficulty BlockHeader.legacyGenesisHeader
        (some 0) = BlockHeader.getTargetDifficulty
        BlockHeader.legacyGenesisHeader none from rfl, this]
    decide
  · intro hcontra
    have h1 : decodeCompactTarget 0 = 0 := by decide
    have h2 : BlockHeader.getTargetDifficulty BlockHeader.legacyGenesisHeader
        (some 0) = 65535 * 2 ^ 208 := by
      have := getTargetDifficulty_none BlockHeader.legacyGenesisHeader
      rw [show BlockHeader.getTargetDifficulty BlockHeader.legacyGenesisHeader
          (some 0) = BlockHeader.getTargetDifficulty
          BlockHeader.legacyGenesisHeader none from rfl, this]
      decide
    rw [h2, h1] at hcontra
    exact absurd hcontra (by positivity)

/-- C4 amended: for every nonzero 32-bit `bits` argument,
`getTargetDifficulty(bits)` is `mantissa * 2^max(0, 8*(exponent-3))` in
exact arithmetic — in particular the mantissa unchanged when the shift count
is zero or negative; a zero argument is falsy in JavaScript and falls back
to the header's own `bits` field instead. -/
theorem getTargetDifficulty_spec (h : BlockHeader) (bits : Nat)
    (hb : bits < 2 ^ 32) (hnz : bits ≠ 0) :
    BlockHeader.getTargetDifficulty h (some bits) =
      (bits % 16777216) *
        2 ^ (max 0 (8 * (((bits / 16777216 : Nat) : Int) - 3))).toNat := by
  rw [getTargetDifficulty_some h hnz,
    Nat.mod_eq_of_lt (show bits < 4294967296 by omega), decodeCompactTarget]
  by_cases hpos : (0 : Int) < 8 * (((bits / 16777216 : Nat) : Int) - 3)
  · rw [if_pos hpos]
    congr 2
    omega
  · rw [if_neg hpos]
    have h0 : (max 0 (8 * (((bits / 16777216 : Nat) : Int) - 3))).toNat = 0 := by
      omega
    rw [h0]
    ring

/-- Witness for C4's amended statement at the genesis compact target. -/
theorem getTargetDifficulty_spec_witness :
    (0x1d00ffff : Nat) < 2 ^ 32 ∧ (0x1d00ffff : Nat) ≠ 0 ∧
    BlockHeader.getTargetDifficulty BlockHeader.legacyGenesisHeader
        (some 0x1d00ffff) =
      (0x1d00ffff % 16777216) *
        2 ^ (max 0 (8 * (((0x1d00ffff / 16777216 : Nat) : Int) - 3))).toNat :=
  ⟨by decide, by decide,
    getTargetDifficulty_spec BlockHeader.legacyGenesisHeader 0x1d00ffff
      (by decide) (by decide)⟩

set_option maxRecDepth 10000 in
/-- C5 counterexample: at `bits = 0x1d64b540` (a legal 32-bit compact
target) the quotient digit string is the 6-digit "992954"; the code's
negative `decimalPos` wraps from the end of the string under JavaScript
`slice`, producing "9929.54" — the decimal point lands two digits from the
end, not eight as the claim states (the claim's rendering of "992954" is
".992954"). -/
theorem getDifficulty_short_cex :
    BlockHeader.getDifficulty c5Header = "9929.54" ∧
    Nat.repr (decodeCompactTarget GENESIS_BITS * 10 ^ 8 /
      decodeCompactTarget c5Header.bits) = "992954" ∧
    BlockHeader.getDifficulty c5Header ≠
      insertPointEightFromEnd "992954" := by
  refine ⟨by decide, by decide, by decide⟩

/-- Resolving the splice position `length - 8` the way JavaScript `slice`
does: 8 from the end on strings of at least 8 characters, otherwise the
negative index wraps to `max 0 (2*len - 8)`. -/
theorem jsSliceIndex_sub_eight (len : Nat) :
    jsSliceIndex len ((len : Int) - 8) =
      if 8 ≤ len then len - 8 else 2 * len - 8 := by
  unfold jsSliceIndex
  by_cases hlen : 8 ≤ len
  · rw [if_neg (by omega), if_pos hlen]
    omega
  · rw [if_pos (by omega), if_neg hlen]
    omega

/-- C5 amended: `getDifficulty` selects the genesis compact target by the
detected layout (`0x1d00ffff` legacy, `0x1f7fffff` extended), returns 1
exactly when the decoded current target is zero, and otherwise renders
`floor((decodeCompactTarget(genesisBits) * 10^8) / decodeCompactTarget(bits))`
in decimal with a point spliced in at `length - 8` resolved as JavaScript
`slice` does — 8 digits from the end for quotients of at least 8 digits,
and at position `max 0 (2*length - 8)` for shorter quotients, where the
negative index wraps from the end; the JavaScript `parseFloat` step is
represented by the decimal string handed to it. -/
theorem getDifficulty_spec (h : BlockHeader) (hb : h.bits < 2 ^ 32) :
    BlockHeader.getDifficulty h =
      (let genesisBits : Nat := if BlockHeader.isBitcoinQuarkField h.height
          then 0x1f7fffff else 0x1d00ffff
       if decodeCompactTarget h.bits = 0 then "1"
       else
         let s := Nat.repr (decodeCompactTarget genesisBits * 10 ^ 8 /
           decodeCompactTarget h.bits)
         let p := if 8 ≤ s.length then s.length - 8 else 2 * s.length - 8
         s.take p ++ "." ++ s.drop p) := by
  unfold BlockHeader.getDifficulty
  rw [getTargetDifficulty_none h,
    Nat.mod_eq_of_lt (show h.bits < 4294967296 by omega)]
  cases hq : BlockHeader.isBitcoinQuarkField h.height
  · simp only [hq, if_false, Bool.false_eq_true]
    rw [getTargetDifficulty_some h (by decide : GENESIS_BITS ≠ 0)]
    norm_num [GENESIS_BITS, jsSliceIndex_sub_eight]
  · simp only [hq, if_true]
    rw [getTargetDifficulty_some h (by decide : QUARK_GENESIS_BITS ≠ 0)]
    norm_num [QUARK_GENESIS_BITS, jsSliceIndex_sub_eight]

/-- Witness for C5 at the legacy genesis-bits header: difficulty renders as
the string "1.00000000". -/
theorem getDifficulty_spec_witness :
    BlockHeader.legacyGenesisHeader.bits < 2 ^ 32 ∧
    BlockHeader.getDifficulty BlockHeader.legacyGenesisHeader =
      "1.00000000" :=
  ⟨by decide,
    (getDifficulty_spec BlockHeader.legacyGenesisHeader (by decide)).trans
      (by decide)⟩

/-- C6: `validProofOfWork` returns true exactly when the header's id, parsed
as an unsigned big integer from its hex string, is at most the decoded
compact target of the header's `bits` field; stated for an arbitrary
double-hash collaborator `H`. -/
theorem validProofOfWork_spec (H : List Nat → List Nat) (h : BlockHeader)
    (hb : h.bits < 2 ^ 32) (i : String)
    (hid : BlockHeader.headerId H h = some i) :
    (BlockHeader.validProofOfWork H h = some true ↔
      hexToNat i ≤ decodeCompactTarget h.bits) := by
  unfold BlockHeader.validProofOfWork
  rw [hid]
  simp only [Option.map, getTargetDifficulty_none h,
    Nat.mod_eq_of_lt (show h.bits < 4294967296 by omega), Option.some.injEq]
  by_cases hc : decodeCompactTarget h.bits < hexToNat i
  · simp only [if_pos hc, Bool.false_eq_true, false_iff]
    omega
  · simp only [if_neg hc, true_iff]
    omega

/-- Witness for C6 with the constant double-hash stand-in on the legacy
genesis-bits header, whose id then parses to 0. -/
theorem validProofOfWork_spec_witness :
    BlockHeader.legacyGenesisHeader.bits < 2 ^ 32 ∧
    BlockHeader.headerId constHash BlockHeader.legacyGenesisHeader =
      some zeros64 ∧
    (BlockHeader.validProofOfWork constHash BlockHeader.legacyGenesisHeader =
        some true ↔
      hexToNat zeros64 ≤
        decodeCompactTarget BlockHeader.legacyGenesisHeader.bits) :=
  ⟨by decide, by decide,
    validProofOfWork_spec constHash BlockHeader.legacyGenesisHeader
      (by decide) zeros64 (by decide)⟩

/-- C7: at a concrete extended field mapping, `_fromObject` byte-reverses the
hex `prevHash`, `merkleRoot` and `reserved`, decodes `solution` without
reversal, and passes numeric fields through — but the returned record's
`nonce` is the untouched input hex string `"1234"`, not the byte-reversed
buffer `[52, 18]` that the claim (and the dead reversed local in the source)
calls for: the record is built from `data.nonce` instead of the local. -/
theorem fromObjectInfo_nonce_bug :
    (fromObjectInfo c7Obj).prevHash = JsVal.buf [255, 0] ∧
    (fromObjectInfo c7Obj).merkleRoot = JsVal.buf [1, 128] ∧
    (fromObjectInfo c7Obj).reserved = JsVal.buf [11, 10] ∧
    (fromObjectInfo c7Obj).solution = JsVal.buf [171, 205] ∧
    (fromObjectInfo c7Obj).version = 4 ∧
    (fromObjectInfo c7Obj).time = 600000000 ∧
    (fromObjectInfo c7Obj).bits = 520617983 ∧
    (fromObjectInfo c7Obj).height = some 7 ∧
    (fromObjectInfo c7Obj).nonce = JsVal.str "1234" ∧
    reverseHex "1234" = [52, 18] ∧
    JsVal.str "1234" ≠ JsVal.buf [52, 18] := by
  decide

/-- C8: converting a concrete extended header to its plain-field rendering
and mapping it back preserves `prevHash`, `merkleRoot`, `reserved` and
`solution` byte-for-byte, but `nonce` comes back as the display-order hex
string rather than the original 32 wire-order bytes. -/
theorem toObject_fromObject_nonce_bug :
    (BlockHeader.toObject constHash BlockHeader.quarkExample).map
        (fun o => (fromObjectInfo o).prevHash) =
      some (JsVal.buf BlockHeader.quarkExample.prevHash) ∧
    (BlockHeader.toObject constHash BlockHeader.quarkExample).map
        (fun o => (fromObjectInfo o).merkleRoot) =
      some (JsVal.buf BlockHeader.quarkExample.merkleRoot) ∧
    (BlockHeader.toObject constHash BlockHeader.quarkExample).map
        (fun o => (fromObjectInfo o).reserved) =
      some (JsVal.buf (List.replicate 28 0)) ∧
    (BlockHeader.toObject constHash BlockHeader.quarkExample).map
        (fun o => (fromObjectInfo o).solution) =
      some (JsVal.buf [1, 2, 3]) ∧
    (BlockHeader.toObject constHash BlockHeader.quarkExample).map
        (fun o => (fromObjectInfo o).nonce) =
      some (JsVal.str (bytesToHex (List.replicate 32 3).reverse)) ∧
    JsVal.str (bytesToHex (List.replicate 32 3).reverse) ≠
      BlockHeader.quarkExample.nonce := by
  decide

/-- C9: the first `id`/`hash` access computes the hex of the byte-reversed
double hash of the serialized header and stores it in the instance cache,
and any later access — here after the header fields have been replaced with
arbitrary other values `h₂` — returns the stored string unchanged, without
recomputation and without touching the instance. -/
theorem idGet_caches (H : List Nat → List Nat) (s : HeaderInstance)
    (v : String) (s₁ : HeaderInstance) (h₂ : BlockHeader)
    (hacc : idGet H s = some (v, s₁)) :
    (s.cachedId = none →
      BlockHeader.headerId H s.header = some v ∧
      s₁ = ⟨s.header, some v⟩) ∧
    idGet H ⟨h₂, s₁.cachedId⟩ = some (v, ⟨h₂, s₁.cachedId⟩) := by
  obtain ⟨hdr, cache⟩ := s
  cases cache with
  | some w =>
      simp only [idGet, Option.some.injEq, Prod.mk.injEq] at hacc
      obtain ⟨hv, hs⟩ := hacc
      subst hv
      refine ⟨fun hnone => by simp at hnone, ?_⟩
      rw [← hs]
      simp [idGet]
  | none =>
      simp only [idGet] at hacc
      cases hh : BlockHeader.headerId H hdr with
      | none => rw [hh] at hacc; simp at hacc
      | some u =>
          rw [hh] at hacc
          simp only [Option.some.injEq, Prod.mk.injEq] at hacc
          obtain ⟨hv, hs⟩ := hacc
          subst hv
          refine ⟨fun _ => ⟨rfl, hs.symm⟩, ?_⟩
          rw [← hs]
          simp [idGet]

/-- Witness for C9: computing the id of a fresh legacy genesis-bits instance
under the constant double-hash stand-in caches the all-zero hex string, and
a second access after mutating `bits` still returns it. -/
theorem idGet_caches_witness :
    ((freshInstance.cachedId = none →
      BlockHeader.headerId constHash freshInstance.header = some zeros64 ∧
      cachedInstance = ⟨freshInstance.header, some zeros64⟩) ∧
    idGet constHash ⟨mutatedHeader, cachedInstance.cachedId⟩ =
      some (zeros64, ⟨mutatedHeader, cachedInstance.cachedId⟩)) :=
  idGet_caches constHash freshInstance zeros64 cachedInstance mutatedHeader
    (by decide)

/-- C10: assigning any value to the `id`/`hash` property is a silent no-op —
the noop setter returns the instance unchanged (no exception, no state
change), so a subsequent read gives exactly what a read without the
assignment gives: the cached or freshly computed hash of the serialized
header, never the assigned value. -/
theorem idSet_noop (H : List Nat → List Nat) (s : HeaderInstance)
    (v : String) :
    idSet s v = s ∧ idGet H (idSet s v) = idGet H s :=
  ⟨rfl, rfl⟩

end Bitcore
